import Mathlib

/-!
Verification of the LLM-response parsing step of MISTRALOCR.py
(`extract_info_with_llm`, lines 183-225) and of the downstream
`analysis_results` display check (lines 341-366).

Modelling conventions:
* Python text is `List Char` (a Python `str` is a sequence of code points).
* Parsed JSON values are the mutual inductive `Json` / `JsonList` /
  `JsonMembers`; a Python `dict` produced by `json.loads` is an ordered
  association list (insertion order preserved, duplicate keys resolved
  last-wins by the lookup).
* `loads` models the standard library `json.loads`: it parses one JSON
  value surrounded by optional whitespace and rejects any trailing
  non-whitespace ("Extra data"); strings are strict (raw control
  characters are rejected, the usual escapes are understood); numbers
  are modelled as integers (no claim concerns fractional numbers).
* `dumps` is the canonical serialization used to state the round-trip
  properties: compact separators, with the quote, the backslash and the
  control characters escaped.
* The fallible Python code returns `Option`: the single failure value of
  `extract_info_with_llm` is `none` (Python `None`).
-/

namespace MistralOCR

mutual

inductive Json where
  | null
  | bool (b : Bool)
  | num (n : Int)
  | str (s : List Char)
  | arr (elems : JsonList)
  | obj (members : JsonMembers)
  deriving DecidableEq

inductive JsonList where
  | nil
  | cons (head : Json) (tail : JsonList)
  deriving DecidableEq

inductive JsonMembers where
  | nil
  | cons (key : List Char) (value : Json) (tail : JsonMembers)
  deriving DecidableEq

end

/-- Whitespace accepted between JSON tokens by `json.loads`. -/
def isJsonWs (c : Char) : Bool :=
  c = ' ' || c = '\t' || c = '\n' || c = '\r'

/-- Whitespace removed by Python `str.strip()` (the ASCII part; the claims
involve no exotic Unicode whitespace). -/
def isPyWs (c : Char) : Bool :=
  c = ' ' || c = '\t' || c = '\n' || c = '\r' || c = '\x0b' || c = '\x0c'

/-- Skip inter-token whitespace. -/
def skipWs (s : List Char) : List Char := s.dropWhile isJsonWs

/-- Python `str.lstrip()`. -/
def pyLStrip (s : List Char) : List Char := s.dropWhile isPyWs

/-- Python `str.rstrip()`. -/
def pyRStrip (s : List Char) : List Char := (s.reverse.dropWhile isPyWs).reverse

/-- Python `str.strip()`. -/
def pyStrip (s : List Char) : List Char := pyRStrip (pyLStrip s)

/-- Python `str.startswith(pat)` on character lists. -/
def listStartsWith : List Char → List Char → Bool
  | [], _ => true
  | _ :: _, [] => false
  | p :: ps, c :: cs => p = c && listStartsWith ps cs

/-- Python `str.endswith(pat)` on character lists. -/
def listEndsWith (pat s : List Char) : Bool :=
  listStartsWith pat.reverse s.reverse

/-- Scan for the first occurrence of `pat` starting at offset `i`
(helper for Python `str.find`). -/
def findSubAux (pat : List Char) : List Char → Nat → Option Nat
  | s, i =>
    if listStartsWith pat s then some i
    else
      match s with
      | [] => none
      | _ :: t => findSubAux pat t (i + 1)

/-- Python `s.find(pat)` (as `Option` instead of the `-1` convention). -/
def findSub (pat s : List Char) : Option Nat := findSubAux pat s 0

/-- Python `s.find(pat, start)`. -/
def findSubFrom (pat s : List Char) (start : Nat) : Option Nat :=
  (findSubAux pat (s.drop start) 0).map (· + start)

/-- Python `pat in s`. -/
def containsSub (pat s : List Char) : Bool := (findSubAux pat s 0).isSome

/-- Python slice `s[a:b]`. -/
def slice (s : List Char) (a b : Nat) : List Char := (s.take b).drop a

/-- Value of a hexadecimal digit, for the `\uXXXX` string escape. -/
def hexDigitVal (c : Char) : Option Nat :=
  if '0' ≤ c ∧ c ≤ '9' then some (c.toNat - 48)
  else if 'a' ≤ c ∧ c ≤ 'f' then some (c.toNat - 87)
  else if 'A' ≤ c ∧ c ≤ 'F' then some (c.toNat - 55)
  else none

/-- Value of the four hexadecimal digits of a `\uXXXX` escape. -/
def hexQuad (h1 h2 h3 h4 : Char) : Option Nat :=
  match hexDigitVal h1, hexDigitVal h2, hexDigitVal h3, hexDigitVal h4 with
  | some a, some b, some c, some d => some (((a * 16 + b) * 16 + c) * 16 + d)
  | _, _, _, _ => none

/-- A Unicode scalar value in the basic plane (no lone surrogate). -/
def isScalar (n : Nat) : Bool := n < 55296 || 57343 < n

/-- Body of a JSON string after the opening quote: returns the decoded
characters and the text after the closing quote.  Models the strict mode
of `json.loads`: raw control characters are rejected, the short escapes
and `\uXXXX` (for Unicode scalar values) are decoded. -/
def parseStrBody : List Char → Option (List Char × List Char)
  | [] => none
  | c :: r =>
    if c = '"' then some ([], r)
    else if c = '\\' then
      match r with
      | [] => none
      | e :: r1 =>
        if e = '"' then (parseStrBody r1).map fun p => ('"' :: p.1, p.2)
        else if e = '\\' then (parseStrBody r1).map fun p => ('\\' :: p.1, p.2)
        else if e = '/' then (parseStrBody r1).map fun p => ('/' :: p.1, p.2)
        else if e = 'n' then (parseStrBody r1).map fun p => ('\n' :: p.1, p.2)
        else if e = 't' then (parseStrBody r1).map fun p => ('\t' :: p.1, p.2)
        else if e = 'r' then (parseStrBody r1).map fun p => ('\r' :: p.1, p.2)
        else if e = 'b' then (parseStrBody r1).map fun p => ('\x08' :: p.1, p.2)
        else if e = 'f' then (parseStrBody r1).map fun p => ('\x0c' :: p.1, p.2)
        else if e = 'u' then
          match r1 with
          | h1 :: h2 :: h3 :: h4 :: r2 =>
            match hexQuad h1 h2 h3 h4 with
            | some n =>
              if isScalar n then (parseStrBody r2).map fun p => (Char.ofNat n :: p.1, p.2)
              else none
            | none => none
          | _ => none
        else none
    else if c.toNat < 32 then none
    else (parseStrBody r).map fun p => (c :: p.1, p.2)

/-- Numeric value of a decimal digit character. -/
def digitVal (c : Char) : Nat := c.toNat - 48

/-- Value of a list of decimal digit characters. -/
def natOfDigits (ds : List Char) : Nat :=
  ds.foldl (fun acc c => acc * 10 + digitVal c) 0

/-- Maximal run of decimal digits at the head of the input (the integer
part of JSON number parsing). -/
def parseDigits (s : List Char) : Option (Nat × List Char) :=
  let ds := s.takeWhile (fun c => c.isDigit)
  if ds.isEmpty then none
  else some (natOfDigits ds, s.drop ds.length)

/-- Comma-separated JSON values up to the closing bracket, each parsed by
`pv`; `fuel` bounds the number of elements. -/
def parseElemsAux (pv : List Char → Option (Json × List Char)) :
    Nat → List Char → Option (JsonList × List Char)
  | 0, _ => none
  | fuel + 1, s =>
    match pv s with
    | none => none
    | some (v, r) =>
      match skipWs r with
      | ',' :: r2 => (parseElemsAux pv fuel r2).map fun p => (JsonList.cons v p.1, p.2)
      | ']' :: r2 => some (JsonList.cons v JsonList.nil, r2)
      | _ => none

/-- Comma-separated `"key": value` pairs up to the closing brace. -/
def parseMembersAux (pv : List Char → Option (Json × List Char)) :
    Nat → List Char → Option (JsonMembers × List Char)
  | 0, _ => none
  | fuel + 1, s =>
    match skipWs s with
    | '"' :: r =>
      match parseStrBody r with
      | none => none
      | some (k, r1) =>
        match skipWs r1 with
        | ':' :: r2 =>
          match pv r2 with
          | none => none
          | some (v, r3) =>
            match skipWs r3 with
            | ',' :: r4 =>
              (parseMembersAux pv fuel r4).map fun p => (JsonMembers.cons k v p.1, p.2)
            | '}' :: r4 => some (JsonMembers.cons k v JsonMembers.nil, r4)
            | _ => none
        | _ => none
    | _ => none

/-- One JSON value at the head of the input (recursive descent, bounded
by `fuel`); returns the value and the unconsumed remainder. -/
def parseValue : Nat → List Char → Option (Json × List Char)
  | 0, _ => none
  | fuel + 1, s =>
    match skipWs s with
    | [] => none
    | c :: r =>
      if c = 'n' then
        if listStartsWith ['u', 'l', 'l'] r then some (Json.null, r.drop 3) else none
      else if c = 't' then
        if listStartsWith ['r', 'u', 'e'] r then some (Json.bool true, r.drop 3) else none
      else if c = 'f' then
        if listStartsWith ['a', 'l', 's', 'e'] r then some (Json.bool false, r.drop 4) else none
      else if c = '"' then
        (parseStrBody r).map fun p => (Json.str p.1, p.2)
      else if c = '[' then
        let t := skipWs r
        if t.head? = some ']' then some (Json.arr JsonList.nil, t.tail)
        else (parseElemsAux (parseValue fuel) fuel t).map fun p => (Json.arr p.1, p.2)
      else if c = '{' then
        let t := skipWs r
        if t.head? = some '}' then some (Json.obj JsonMembers.nil, t.tail)
        else (parseMembersAux (parseValue fuel) fuel t).map fun p => (Json.obj p.1, p.2)
      else if c = '-' then
        (parseDigits r).map fun p => (Json.num (-(p.1 : Int)), p.2)
      else if c.isDigit then
        (parseDigits (c :: r)).map fun p => (Json.num (p.1 : Int), p.2)
      else none

/-- Model of `json.loads`: parse a single JSON value and require that only
whitespace remains; any other outcome is the `JSONDecodeError` path,
returned as `none`. -/
def loads (s : List Char) : Option Json :=
  match parseValue (s.length + 1) s with
  | some (v, rest) => if (skipWs rest).isEmpty then some v else none
  | none => none

/-- Lowercase hexadecimal digit character. -/
def hexChar (n : Nat) : Char :=
  Char.ofNat (if n < 10 then 48 + n else 87 + n)

/-- Serialization of one string character: escape the quote, the backslash
and the control characters. -/
def escapeChar (c : Char) : List Char :=
  if c = '"' then ['\\', '"']
  else if c = '\\' then ['\\', '\\']
  else if c.toNat < 32 then
    ['\\', 'u', '0', '0', hexChar (c.toNat / 16), hexChar (c.toNat % 16)]
  else [c]

/-- Serialization of a string body. -/
def escapeList : List Char → List Char
  | [] => []
  | c :: t => escapeChar c ++ escapeList t

/-- Serialization of a JSON string, quotes included. -/
def dumpsStr (s : List Char) : List Char := '"' :: escapeList s ++ ['"']

/-- Decimal digits of a natural number (fuelled so that it reduces in the
kernel; `fuel > n` always suffices since `n` shrinks tenfold each step). -/
def natToDigitsAux : Nat → Nat → List Char
  | 0, _ => []
  | fuel + 1, n =>
    if n < 10 then [Char.ofNat (48 + n)]
    else natToDigitsAux fuel (n / 10) ++ [Char.ofNat (48 + n % 10)]

/-- Decimal digits of a natural number. -/
def natToDigits (n : Nat) : List Char := natToDigitsAux (n + 1) n

/-- Serialization of an integer JSON number. -/
def dumpsNum (n : Int) : List Char :=
  if n < 0 then '-' :: natToDigits n.natAbs else natToDigits n.natAbs

mutual

/-- Canonical serialization of a JSON value (compact separators). -/
def dumps : Json → List Char
  | .null => ("null").data
  | .bool true => ("true").data
  | .bool false => ("false").data
  | .num n => dumpsNum n
  | .str s => dumpsStr s
  | .arr l => '[' :: dumpsList l ++ [']']
  | .obj m => '{' :: dumpsMembers m ++ ['}']

/-- Serialization of array elements, comma-separated. -/
def dumpsList : JsonList → List Char
  | .nil => []
  | .cons h .nil => dumps h
  | .cons h (.cons h2 t) => dumps h ++ ',' :: dumpsList (JsonList.cons h2 t)

/-- Serialization of object members, comma-separated. -/
def dumpsMembers : JsonMembers → List Char
  | .nil => []
  | .cons k v .nil => dumpsStr k ++ ':' :: dumps v
  | .cons k v (.cons k2 v2 t) =>
    dumpsStr k ++ ':' :: dumps v ++ ',' :: dumpsMembers (JsonMembers.cons k2 v2 t)

end

/-- Python `isinstance(x, dict)` on a parsed JSON value. -/
def Json.isObj : Json → Bool
  | .obj _ => true
  | _ => false

/-- The opening fence marker searched for by the code, the literal
sequence of seven characters spelling backtick-backtick-backtick-json. -/
def fenceMarker : List Char := ['`', '`', '`', 'j', 's', 'o', 'n']

/-- The closing fence marker, three backticks. -/
def closeMarker : List Char := ['`', '`', '`']

/-- Markdown-fence candidate extraction of `extract_info_with_llm`
(MISTRALOCR.py lines 194-202), applied to the stripped response text:
if the text starts with the opening marker, take everything after it,
strip, and remove a closing-marker suffix only if the stripped text ends
with one; otherwise, if the marker occurs anywhere, take the text from
after its first occurrence up to the next occurrence of the closing
marker (failing if there is none).  Returns Python's `json_string`
(`none` when it stays `None`). -/
def extractCandidate (content : List Char) : Option (List Char) :=
  if listStartsWith fenceMarker content then
    let s := pyStrip (content.drop 7)
    if listEndsWith closeMarker s then some (pyStrip (s.take (s.length - 3)))
    else some s
  else if containsSub fenceMarker content then
    match findSub fenceMarker content with
    | some idx =>
      match findSubFrom closeMarker content (idx + 7) with
      | some e => some (pyStrip (slice content (idx + 7) e))
      | none => none
    | none => none
  else none

/-- One Streamlit display call made by the parsing step. -/
inductive UIMsg where
  | warning (text : List Char)
  | error (text : List Char)
  | text (body : List Char)
  deriving DecidableEq

/-- Ambient UI state: the log of display calls made so far.  The parsing
step only appends to it and never reads it. -/
structure UIState where
  log : List UIMsg

/-- Append one display call to the UI log. -/
def emit (st : UIState) (m : UIMsg) : UIState := ⟨st.log ++ [m]⟩

def warnFenceMsg : List Char :=
  ("Le modèle n'a pas retourné de JSON direct. Recherche du bloc de code markdown...").data

def errFenceInvalidMsg : List Char :=
  ("L'IA a généré une réponse qui ne contient pas de JSON valide même dans un bloc de code.").data

def errUnexpectedMsg : List Char :=
  ("L'IA a généré une réponse inattendue qui ne contient pas de JSON valide ou un bloc markdown JSON.").data

def errNotDictMsg : List Char :=
  ("L'IA n'a pas retourné un objet JSON de niveau supérieur valide.").data

def rawLabelMsg : List Char := ("Réponse brute de l'IA:").data

/-- Emit the error/diagnostic triple shown on every failure path:
`st.error(msg)`, `st.text("Réponse brute de l'IA:")`, `st.text(content)`. -/
def emitFailure (st : UIState) (msg content : List Char) : UIState :=
  emit (emit (emit st (UIMsg.error msg)) (UIMsg.text rawLabelMsg)) (UIMsg.text content)

/-- The response-parsing step of `extract_info_with_llm` (MISTRALOCR.py
lines 183-225): strip the raw response, try `json.loads` on the whole
text, on decode error warn and search for a markdown fence candidate,
parse the candidate if one was found and is non-empty (Python
`if json_string:`), and finally require the parsed value to be a `dict`.
Returns the updated UI log and the function's return value
(`extracted_data`, or `None` on every failure path). -/
def extractStep (st : UIState) (raw : List Char) : UIState × Option Json :=
  let content := pyStrip raw
  match loads content with
  | some v =>
    if v.isObj then (st, some v)
    else (emitFailure st errNotDictMsg content, none)
  | none =>
    let st1 := emit st (UIMsg.warning warnFenceMsg)
    match extractCandidate content with
    | some js =>
      if js.isEmpty then (emitFailure st1 errUnexpectedMsg content, none)
      else
        match loads js with
        | some v =>
          if v.isObj then (st1, some v)
          else (emitFailure st1 errNotDictMsg content, none)
        | none => (emitFailure st1 errFenceInvalidMsg content, none)
    | none => (emitFailure st1 errUnexpectedMsg content, none)

/-- The value returned by the parsing step (the spec's `parse`),
irrespective of the UI log. -/
def parsePipeline (raw : List Char) : Option Json := (extractStep ⟨[]⟩ raw).2

/-- Python `dict.get(key)` on a parsed JSON object: association-list
lookup with the later duplicate winning (as in a `dict` built by
`json.loads`); `none` for a missing key or a non-dict value. -/
def membersGet : JsonMembers → List Char → Option Json
  | .nil, _ => none
  | .cons k v t, key =>
    match membersGet t key with
    | some r => some r
    | none => if k = key then some v else none

/-- Lookup on a JSON value, as `extracted_data.get(...)`. -/
def Json.getKey : Json → List Char → Option Json
  | .obj m, key => membersGet m key
  | _, _ => none

/-- Python truthiness of a parsed JSON value (`if analysis_results:`). -/
def Json.pyTruthy : Json → Bool
  | .null => false
  | .bool b => b
  | .num n => if n = 0 then false else true
  | .str s => !s.isEmpty
  | .arr l => match l with | .nil => false | _ => true
  | .obj m => match m with | .nil => false | _ => true

/-- All elements satisfy a predicate. -/
def jsonListAll (p : Json → Bool) : JsonList → Bool
  | .nil => true
  | .cons h t => p h && jsonListAll p t

/-- Python `isinstance(x, list) and all(isinstance(item, dict) for item
in x)` (MISTRALOCR.py line 345). -/
def isListOfDicts : Json → Bool
  | .arr l => jsonListAll Json.isObj l
  | _ => false

/-- Outcome of the `analysis_results` display block. -/
inductive ResultsDisplay where
  | table (rows : JsonList)
  | formatError (ar : Json)
  | noResults
  deriving DecidableEq

/-- The `analysis_results` display logic applied to a successfully
extracted record (MISTRALOCR.py lines 341-368): a missing or falsy value
yields the "no results" warning; a truthy value that is a list of dicts
is rendered as a table; any other truthy value triggers the
format-error message. -/
def resultsDisplay (d : Json) : ResultsDisplay :=
  match d.getKey ("analysis_results").data with
  | none => ResultsDisplay.noResults
  | some ar =>
    if ar.pyTruthy then
      if isListOfDicts ar then
        match ar with
        | .arr rows => ResultsDisplay.table rows
        | _ => ResultsDisplay.formatError ar
      else ResultsDisplay.formatError ar
    else ResultsDisplay.noResults

/-- Leaf check of the extraction schema: a string or `null`. -/
def strOrNull : Json → Bool
  | .str _ => true
  | .null => true
  | _ => false

/-- All members satisfy a predicate. -/
def membersAll (p : List Char → Json → Bool) : JsonMembers → Bool
  | .nil => true
  | .cons k v t => p k v && membersAll p t

/-- An object all of whose values are strings or `null` (a schema section
or one analysis-results row). -/
def flatStrObj : Json → Bool
  | .obj m => membersAll (fun _ v => strOrNull v) m
  | _ => false

/-- Conformance of one top-level field to the extraction schema of
`extract_info_with_llm` (the `json_schema` value, MISTRALOCR.py lines
96-134): the three info sections are flat string-or-null objects,
`analysis_results` is an array of such row objects, `conclusion` is a
string or `null`, and unknown fields are ignored. -/
def schemaFieldOk (k : List Char) (v : Json) : Bool :=
  if k = ("report_info").data then flatStrObj v
  else if k = ("client_info").data then flatStrObj v
  else if k = ("sample_info").data then flatStrObj v
  else if k = ("analysis_results").data then
    match v with
    | .arr rows => jsonListAll flatStrObj rows
    | _ => false
  else if k = ("conclusion").data then strOrNull v
  else true

/-- A valid JSON object conforming to the extraction schema. -/
def schemaConform : Json → Bool
  | .obj m => membersAll schemaFieldOk m
  | _ => false

/-- Modelled from the spec: the candidate the specification prescribes
for every fence position — the text from immediately after the first
occurrence of the opening marker up to the next occurrence of the
closing marker, trimmed of whitespace (spec section 4.1, step 2).
Stated only to be compared with the code's `extractCandidate`. -/
def specFenceCandidate (content : List Char) : Option (List Char) :=
  match findSub fenceMarker content with
  | none => none
  | some idx =>
    match findSubFrom closeMarker content (idx + 7) with
    | none => none
    | some e => some (pyStrip (slice content (idx + 7) e))

mutual

/-- Recursion fuel sufficient for `parseValue` to parse the
serialization of a value. -/
def jfuel : Json → Nat
  | .null => 1
  | .bool _ => 1
  | .num _ => 1
  | .str _ => 1
  | .arr l => 1 + jfuelList l
  | .obj m => 1 + jfuelMembers m

/-- Fuel for the element loop. -/
def jfuelList : JsonList → Nat
  | .nil => 0
  | .cons h t => 1 + jfuel h + jfuelList t

/-- Fuel for the member loop. -/
def jfuelMembers : JsonMembers → Nat
  | .nil => 0
  | .cons _ v t => 1 + jfuel v + jfuelMembers t

end

/-- The text does not begin with a decimal digit (delimiter condition for
the maximal-munch number parser). -/
def headNotDigit : List Char → Bool
  | [] => true
  | c :: _ => !c.isDigit

/-- Input for claim C1: the entire text is one valid JSON string (not a
mapping) whose characters spell a fenced JSON object. -/
def c1Raw : List Char := ("\"```json \x7b\x7d ```\"").data

/-- Input for claim C2: a valid JSON object whose `analysis_results`
value is a plain string instead of a sequence. -/
def c2Raw : List Char := ("\x7b\"analysis_results\": \"not-a-list\"\x7d").data

/-- The record parsed from `c2Raw`. -/
def c2Record : Json :=
  Json.obj (.cons ("analysis_results").data (.str ("not-a-list").data) .nil)

/-- Input for claim C3: an opening fence at the very start of the text,
a well-formed fenced object, and trailing commentary after the closing
fence. -/
def c3Raw : List Char := ("```json\n\x7b\"a\": 1\x7d\n```\nThanks").data

/-- Input for the C3 witness: the opening fence occurs after leading
commentary, not at the start of the text. -/
def c3OffStartRaw : List Char := ("Here: ```json \x7b\x7d ``` thanks").data

/-- Schema-conforming object for the C4 witness. -/
def c4Obj : Json :=
  Json.obj (.cons ("conclusion").data (.str ("Conforme").data) .nil)

/-- Schema-conforming object with a nested section and a results array,
for the C5 witness. -/
def c5Obj : Json :=
  Json.obj (.cons ("report_info").data
      (Json.obj (.cons ("lab_name").data (.str ("Labo").data)
        (.cons ("report_id").data Json.null .nil)))
    (.cons ("analysis_results").data
      (Json.arr (.cons (Json.obj (.cons ("parameter").data (.str ("pH").data) .nil))
        .nil)) .nil))

/-- Input for claim C10: a top-level object with number, boolean and
array leaves and a field outside the schema. -/
def c10Raw : List Char :=
  ("\x7b\"conclusion\": 7, \"extra\": true, \"sample_info\": [1]\x7d").data

/-- The record parsed from `c10Raw`, unmodified: non-string leaves and
the unknown field survive, and no schema field was inserted. -/
def c10Record : Json :=
  Json.obj (.cons ("conclusion").data (.num 7)
    (.cons ("extra").data (.bool true)
      (.cons ("sample_info").data (.arr (.cons (.num 1) .nil)) .nil)))

/-! ## Character and whitespace lemmas -/

theorem isDigit_ne {c : Char} (d : Char) (h : c.isDigit = true)
    (hd : d.isDigit = false) : c ≠ d := by
  intro e; rw [e, hd] at h; exact Bool.noConfusion h

theorem digit_not_ws {c : Char} (h : c.isDigit = true) : isJsonWs c = false := by
  have h1 : c ≠ ' ' := isDigit_ne _ h (by decide)
  have h2 : c ≠ '\t' := isDigit_ne _ h (by decide)
  have h3 : c ≠ '\n' := isDigit_ne _ h (by decide)
  have h4 : c ≠ '\r' := isDigit_ne _ h (by decide)
  simp [isJsonWs, h1, h2, h3, h4]

theorem skipWs_nil : skipWs [] = [] := rfl

theorem skipWs_cons {c : Char} (t : List Char) (h : isJsonWs c = false) :
    skipWs (c :: t) = c :: t := by
  simp [skipWs, List.dropWhile_cons, h]

/-! ## Decimal digit serialization lemmas -/

theorem digitChar_spec : ∀ n < 10,
    (Char.ofNat (48 + n)).isDigit = true ∧ digitVal (Char.ofNat (48 + n)) = n := by decide

theorem hexDigitVal_hexChar : ∀ m < 16, hexDigitVal (hexChar m) = some m := by decide

theorem hexQuad_00 {a b : Nat} (ha : a < 16) (hb : b < 16) :
    hexQuad '0' '0' (hexChar a) (hexChar b) = some (a * 16 + b) := by
  have h0 : hexDigitVal '0' = some 0 := by decide
  simp only [hexQuad, h0, hexDigitVal_hexChar a ha, hexDigitVal_hexChar b hb]
  norm_num

theorem natOfDigits_concat (ds : List Char) (d : Char) :
    natOfDigits (ds ++ [d]) = natOfDigits ds * 10 + digitVal d := by
  simp [natOfDigits, List.foldl_append]

theorem natToDigitsAux_spec : ∀ fuel n, n < fuel →
    natToDigitsAux fuel n ≠ [] ∧ (∀ c ∈ natToDigitsAux fuel n, c.isDigit = true) ∧
    natOfDigits (natToDigitsAux fuel n) = n := by
  intro fuel
  induction fuel with
  | zero => intro n h; omega
  | succ f ih =>
    intro n h
    by_cases h10 : n < 10
    · simp only [natToDigitsAux, if_pos h10]
      refine ⟨by simp, ?_, ?_⟩
      · intro c hc
        simp only [List.mem_singleton] at hc
        subst hc; exact (digitChar_spec n h10).1
      · simpa [natOfDigits] using (digitChar_spec n h10).2
    · have hdiv : n / 10 < f := by
        have := Nat.div_lt_self (show 0 < n by omega) (show 1 < 10 by norm_num)
        omega
      obtain ⟨hne, hdig, hval⟩ := ih (n / 10) hdiv
      have hm : n % 10 < 10 := Nat.mod_lt _ (by norm_num)
      simp only [natToDigitsAux, if_neg h10]
      refine ⟨by simp, ?_, ?_⟩
      · intro c hc
        rcases List.mem_append.mp hc with h1 | h2
        · exact hdig c h1
        · simp only [List.mem_singleton] at h2
          subst h2; exact (digitChar_spec _ hm).1
      · rw [natOfDigits_concat, hval, (digitChar_spec _ hm).2]
        omega

theorem natToDigits_spec (n : Nat) :
    natToDigits n ≠ [] ∧ (∀ c ∈ natToDigits n, c.isDigit = true) ∧
    natOfDigits (natToDigits n) = n :=
  natToDigitsAux_spec (n + 1) n (Nat.lt_succ_self n)

theorem takeWhile_append_of_all {p : Char → Bool} {l1 : List Char} (l2 : List Char)
    (h : ∀ c ∈ l1, p c = true) :
    (l1 ++ l2).takeWhile p = l1 ++ l2.takeWhile p := by
  induction l1 with
  | nil => simp
  | cons a t ih =>
    have ha : p a = true := h a (by simp)
    simp [List.takeWhile_cons, ha, ih fun c hc => h c (by simp [hc])]

theorem parseDigits_spec (ds rest : List Char) (hne : ds ≠ [])
    (hdig : ∀ c ∈ ds, c.isDigit = true) (hrest : headNotDigit rest = true) :
    parseDigits (ds ++ rest) = some (natOfDigits ds, rest) := by
  have hr : rest.takeWhile (fun c => c.isDigit) = [] := by
    cases rest with
    | nil => rfl
    | cons a t =>
      simp only [headNotDigit, Bool.not_eq_true'] at hrest
      simp [List.takeWhile_cons, hrest]
  have ht : (ds ++ rest).takeWhile (fun c => c.isDigit) = ds := by
    rw [takeWhile_append_of_all rest hdig, hr, List.append_nil]
  simp [parseDigits, ht, hne]

/-! ## String body round trip -/

theorem parseStrBody_escape : ∀ s rest : List Char,
    parseStrBody (escapeList s ++ '"' :: rest) = some (s, rest) := by
  intro s
  induction s with
  | nil =>
    intro rest
    rw [show escapeList [] ++ '"' :: rest = '"' :: rest by simp [escapeList]]
    rw [parseStrBody.eq_def]
    simp
  | cons c t ih =>
    intro rest
    rw [show escapeList (c :: t) ++ '"' :: rest
        = escapeChar c ++ (escapeList t ++ '"' :: rest) by simp [escapeList]]
    by_cases hq : c = '"'
    · subst hq
      rw [show escapeChar '"' = ['\\', '"'] from rfl]
      rw [List.cons_append, List.cons_append, List.nil_append, parseStrBody.eq_def]
      simp [ih]
    · by_cases hb : c = '\\'
      · subst hb
        rw [show escapeChar '\\' = ['\\', '\\'] from rfl]
        rw [List.cons_append, List.cons_append, List.nil_append, parseStrBody.eq_def]
        simp [ih]
      · by_cases hc : c.toNat < 32
        · have hdiv : c.toNat / 16 < 16 := by omega
          have hmod : c.toNat % 16 < 16 := Nat.mod_lt _ (by norm_num)
          have hq16 : hexQuad '0' '0' (hexChar (c.toNat / 16)) (hexChar (c.toNat % 16))
              = some (c.toNat / 16 * 16 + c.toNat % 16) := hexQuad_00 hdiv hmod
          have hn : c.toNat / 16 * 16 + c.toNat % 16 = c.toNat := by
            have := Nat.div_add_mod c.toNat 16
            omega
          have hs : isScalar c.toNat = true := by
            simp only [isScalar, Bool.or_eq_true, decide_eq_true_eq]
            omega
          rw [show escapeChar c
              = ['\\', 'u', '0', '0', hexChar (c.toNat / 16), hexChar (c.toNat % 16)] by
            simp [escapeChar, hq, hb, hc]]
          simp only [List.cons_append, List.nil_append]
          rw [parseStrBody.eq_def]
          simp [hq16, hn, hs, Char.ofNat_toNat, ih]
        · rw [show escapeChar c = [c] by simp [escapeChar, hq, hb, hc]]
          simp only [List.cons_append, List.nil_append]
          rw [parseStrBody.eq_def]
          simp [hq, hb, hc, ih]

/-! ## Serialization shape lemmas -/

theorem dumps_null : dumps Json.null = ['n', 'u', 'l', 'l'] := rfl

theorem dumps_true : dumps (Json.bool true) = ['t', 'r', 'u', 'e'] := rfl

theorem dumps_false : dumps (Json.bool false) = ['f', 'a', 'l', 's', 'e'] := rfl

theorem dumps_num (n : Int) : dumps (Json.num n) = dumpsNum n := rfl

theorem dumps_str (s : List Char) :
    dumps (Json.str s) = '"' :: (escapeList s ++ ['"']) := rfl

theorem dumps_arr (l : JsonList) : dumps (Json.arr l) = '[' :: (dumpsList l ++ [']']) := rfl

theorem dumps_obj (m : JsonMembers) :
    dumps (Json.obj m) = '{' :: (dumpsMembers m ++ ['}']) := rfl

theorem dumpsList_one (h : Json) : dumpsList (JsonList.cons h JsonList.nil) = dumps h := rfl

theorem dumpsList_cons2 (h h2 : Json) (t : JsonList) :
    dumpsList (JsonList.cons h (JsonList.cons h2 t))
      = dumps h ++ ',' :: dumpsList (JsonList.cons h2 t) := rfl

theorem dumpsMembers_one (k : List Char) (v : Json) :
    dumpsMembers (JsonMembers.cons k v JsonMembers.nil) = dumpsStr k ++ ':' :: dumps v := rfl

theorem dumpsMembers_cons2 (k : List Char) (v : Json) (k2 : List Char) (v2 : Json)
    (t : JsonMembers) :
    dumpsMembers (JsonMembers.cons k v (JsonMembers.cons k2 v2 t))
      = dumpsStr k ++ ':' :: dumps v ++ ',' :: dumpsMembers (JsonMembers.cons k2 v2 t) := rfl

/-- The first character of any serialized value is not whitespace and not
a closing delimiter, so the parser's lookahead takes the element branch. -/
theorem dumps_head (v : Json) :
    ∃ c t, dumps v = c :: t ∧ isJsonWs c = false ∧ c ≠ ']' ∧ c ≠ '}' := by
  cases v with
  | null => exact ⟨'n', _, dumps_null, by decide, by decide, by decide⟩
  | bool b =>
    cases b with
    | true => exact ⟨'t', _, dumps_true, by decide, by decide, by decide⟩
    | false => exact ⟨'f', _, dumps_false, by decide, by decide, by decide⟩
  | num n =>
    rw [dumps_num]
    by_cases hneg : n < 0
    · exact ⟨'-', natToDigits n.natAbs, by simp [dumpsNum, hneg], by decide, by decide,
        by decide⟩
    · obtain ⟨hne, hdig, -⟩ := natToDigits_spec n.natAbs
      rcases hl : natToDigits n.natAbs with - | ⟨d, ds⟩
      · exact absurd hl hne
      · have hd : d.isDigit = true := hdig d (by rw [hl]; simp)
        exact ⟨d, ds, by simp [dumpsNum, hneg, hl],
          digit_not_ws hd, isDigit_ne _ hd (by decide), isDigit_ne _ hd (by decide)⟩
  | str s => exact ⟨'"', _, dumps_str s, by decide, by decide, by decide⟩
  | arr l => exact ⟨'[', _, dumps_arr l, by decide, by decide, by decide⟩
  | obj m => exact ⟨'{', _, dumps_obj m, by decide, by decide, by decide⟩

theorem skipWs_dumps_append (v : Json) (rest : List Char) :
    skipWs (dumps v ++ rest) = dumps v ++ rest := by
  obtain ⟨c, t, hct, hws, -, -⟩ := dumps_head v
  rw [hct, List.cons_append, skipWs_cons _ hws]

/-! ## Round trip of the serializer through the parser -/

theorem headNotDigit_cons {c : Char} (r : List Char) (h : c.isDigit = false) :
    headNotDigit (c :: r) = true := by simp [headNotDigit, h]

theorem dumpsList_cons_eq (h : Json) (t : JsonList) :
    ∃ u, dumpsList (JsonList.cons h t) = dumps h ++ u := by
  cases t with
  | nil => exact ⟨[], by simp [dumpsList_one]⟩
  | cons h2 t2 => exact ⟨',' :: dumpsList (JsonList.cons h2 t2), dumpsList_cons2 h h2 t2⟩

theorem dumpsStr_eq (k : List Char) : dumpsStr k = '"' :: (escapeList k ++ ['"']) := rfl

mutual

/-- Round trip of one serialized value through the fuelled parser: with
fuel at least `jfuel v` and a remainder that does not begin with a digit,
the parser consumes exactly the serialization and returns the value. -/
theorem parse_dumps_val (v : Json) : ∀ (fuel : Nat) (rest : List Char),
    jfuel v ≤ fuel → headNotDigit rest = true →
    parseValue fuel (dumps v ++ rest) = some (v, rest) := by
  cases v with
  | null =>
    intro fuel rest hf _
    cases fuel with
    | zero => simp [jfuel] at hf
    | succ f =>
      rw [dumps_null]
      simp only [List.cons_append, List.nil_append]
      rw [parseValue.eq_def]
      simp only []
      rw [skipWs_cons _ (by decide)]
      simp [listStartsWith]
  | bool b =>
    intro fuel rest hf _
    cases fuel with
    | zero => simp [jfuel] at hf
    | succ f =>
      cases b with
      | true =>
        rw [dumps_true]
        simp only [List.cons_append, List.nil_append]
        rw [parseValue.eq_def]
        simp only []
        rw [skipWs_cons _ (by decide)]
        simp [listStartsWith]
      | false =>
        rw [dumps_false]
        simp only [List.cons_append, List.nil_append]
        rw [parseValue.eq_def]
        simp only []
        rw [skipWs_cons _ (by decide)]
        simp [listStartsWith]
  | num n =>
    intro fuel rest hf hr
    cases fuel with
    | zero => simp [jfuel] at hf
    | succ f =>
      rw [dumps_num]
      obtain ⟨hne, hdig, hval⟩ := natToDigits_spec n.natAbs
      by_cases hneg : n < 0
      · rw [show dumpsNum n = '-' :: natToDigits n.natAbs by simp [dumpsNum, hneg]]
        simp only [List.cons_append]
        rw [parseValue.eq_def]
        simp only []
        rw [skipWs_cons _ (by decide)]
        simp only [show ('-' : Char) ≠ 'n' by decide, show ('-' : Char) ≠ 't' by decide,
          show ('-' : Char) ≠ 'f' by decide, show ('-' : Char) ≠ '"' by decide,
          show ('-' : Char) ≠ '[' by decide, show ('-' : Char) ≠ '{' by decide,
          if_false, reduceIte]
        rw [parseDigits_spec _ rest hne hdig hr, hval]
        have hcast : -((n.natAbs : Nat) : Int) = n := by omega
        simp only [Option.map_some']
        rw [hcast]
      · rcases hl : natToDigits n.natAbs with - | ⟨d, ds⟩
        · exact absurd hl hne
        · have hdd : d.isDigit = true := hdig d (by rw [hl]; simp)
          have h1 : d ≠ 'n' := isDigit_ne _ hdd (by decide)
          have h2 : d ≠ 't' := isDigit_ne _ hdd (by decide)
          have h3 : d ≠ 'f' := isDigit_ne _ hdd (by decide)
          have h4 : d ≠ '"' := isDigit_ne _ hdd (by decide)
          have h5 : d ≠ '[' := isDigit_ne _ hdd (by decide)
          have h6 : d ≠ '{' := isDigit_ne _ hdd (by decide)
          have h7 : d ≠ '-' := isDigit_ne _ hdd (by decide)
          rw [show dumpsNum n = d :: ds by
            rw [show dumpsNum n = natToDigits n.natAbs by simp [dumpsNum, hneg], hl]]
          simp only [List.cons_append]
          rw [parseValue.eq_def]
          simp only []
          rw [skipWs_cons _ (digit_not_ws hdd)]
          simp only [h1, h2, h3, h4, h5, h6, h7, if_false, hdd, if_true, reduceIte]
          rw [show d :: (ds ++ rest) = (d :: ds) ++ rest from rfl, ← hl]
          rw [parseDigits_spec _ rest hne hdig hr, hl]
          rw [show natOfDigits (d :: ds) = n.natAbs by rw [← hl, hval]]
          have hcast : ((n.natAbs : Nat) : Int) = n := by omega
          simp only [Option.map_some']
          rw [hcast]
  | str s =>
    intro fuel rest hf _
    cases fuel with
    | zero => simp [jfuel] at hf
    | succ f =>
      rw [dumps_str]
      simp only [List.cons_append, List.append_assoc, List.nil_append]
      rw [parseValue.eq_def]
      simp only []
      rw [skipWs_cons _ (by decide)]
      simp [parseStrBody_escape]
  | arr l =>
    intro fuel rest hf _
    cases fuel with
    | zero => simp [jfuel] at hf
    | succ f =>
      cases l with
      | nil =>
        rw [dumps_arr]
        simp only [List.cons_append, List.append_assoc, List.nil_append]
        rw [parseValue.eq_def]
        simp only []
        rw [skipWs_cons _ (by decide)]
        simp [dumpsList, skipWs_cons _ (show isJsonWs ']' = false by decide)]
      | cons hj t =>
        have hfl : jfuelList (JsonList.cons hj t) ≤ f := by
          simp [jfuel] at hf; omega
        rw [dumps_arr]
        simp only [List.cons_append, List.append_assoc, List.nil_append]
        rw [parseValue.eq_def]
        simp only []
        rw [skipWs_cons _ (by decide)]
        simp only [reduceIte]
        obtain ⟨u, hu⟩ := dumpsList_cons_eq hj t
        obtain ⟨c0, t0, hct, hws0, hnr0, hnb0⟩ := dumps_head hj
        have hskip : skipWs (dumpsList (JsonList.cons hj t) ++ ']' :: rest)
            = dumpsList (JsonList.cons hj t) ++ ']' :: rest := by
          rw [hu, List.append_assoc]
          exact skipWs_dumps_append hj (u ++ ']' :: rest)
        rw [hskip]
        have hh : (dumpsList (JsonList.cons hj t) ++ ']' :: rest).head? = some c0 := by
          rw [hu, hct]; simp
        rw [hh]
        rw [if_neg (show ¬(some c0 = some ']') by simpa using hnr0)]
        rw [parse_dumps_elems (JsonList.cons hj t) f f rest (by simp) hfl hfl]
        simp
  | obj m =>
    intro fuel rest hf _
    cases fuel with
    | zero => simp [jfuel] at hf
    | succ f =>
      cases m with
      | nil =>
        rw [dumps_obj]
        simp only [List.cons_append, List.append_assoc, List.nil_append]
        rw [parseValue.eq_def]
        simp only []
        rw [skipWs_cons _ (by decide)]
        simp [dumpsMembers, skipWs_cons _ (show isJsonWs '}' = false by decide)]
      | cons k v t =>
        have hfm : jfuelMembers (JsonMembers.cons k v t) ≤ f := by
          simp [jfuel] at hf; omega
        rw [dumps_obj]
        simp only [List.cons_append, List.append_assoc, List.nil_append]
        rw [parseValue.eq_def]
        simp only []
        rw [skipWs_cons _ (by decide)]
        simp only [reduceIte]
        have hmh : ∃ u, dumpsMembers (JsonMembers.cons k v t) = '"' :: u := by
          cases t with
          | nil =>
            exact ⟨(escapeList k ++ ['"']) ++ ':' :: dumps v, by
              rw [dumpsMembers_one, dumpsStr_eq]; simp⟩
          | cons k2 v2 t2 =>
            exact ⟨(escapeList k ++ ['"'])
                ++ ':' :: dumps v ++ ',' :: dumpsMembers (JsonMembers.cons k2 v2 t2), by
              rw [dumpsMembers_cons2, dumpsStr_eq]; simp⟩
        obtain ⟨u, hu⟩ := hmh
        have hskip : skipWs (dumpsMembers (JsonMembers.cons k v t) ++ '}' :: rest)
            = dumpsMembers (JsonMembers.cons k v t) ++ '}' :: rest := by
          rw [hu, List.cons_append]
          exact skipWs_cons _ (by decide)
        rw [hskip]
        have hh : (dumpsMembers (JsonMembers.cons k v t) ++ '}' :: rest).head? = some '"' := by
          rw [hu]; simp
        rw [hh]
        rw [if_neg (show ¬(some '"' = some '}') by decide)]
        rw [parse_dumps_members (JsonMembers.cons k v t) f f rest (by simp) hfm hfm]
        simp

/-- Round trip of serialized array elements through the element loop. -/
theorem parse_dumps_elems (l : JsonList) : ∀ (fv fe : Nat) (rest : List Char),
    l ≠ JsonList.nil → jfuelList l ≤ fv → jfuelList l ≤ fe →
    parseElemsAux (parseValue fv) fe (dumpsList l ++ ']' :: rest) = some (l, rest) := by
  cases l with
  | nil => intro fv fe rest hne _ _; exact absurd rfl hne
  | cons h t =>
    intro fv fe rest _ hfv hfe
    cases fe with
    | zero => simp [jfuelList] at hfe
    | succ fe' =>
      have hjh : jfuel h ≤ fv := by simp [jfuelList] at hfv; omega
      rw [parseElemsAux.eq_def]
      simp only []
      cases t with
      | nil =>
        rw [dumpsList_one]
        rw [parse_dumps_val h fv (']' :: rest) hjh (headNotDigit_cons _ (by decide))]
        simp only []
        rw [skipWs_cons _ (by decide)]
        simp
      | cons h2 t2 =>
        have hft : jfuelList (JsonList.cons h2 t2) ≤ fv := by
          simp [jfuelList] at hfv ⊢; omega
        have hft2 : jfuelList (JsonList.cons h2 t2) ≤ fe' := by
          simp [jfuelList] at hfe ⊢; omega
        rw [dumpsList_cons2]
        simp only [List.cons_append, List.append_assoc]
        rw [parse_dumps_val h fv _ hjh (headNotDigit_cons _ (by decide))]
        simp only []
        rw [skipWs_cons _ (by decide)]
        simp only []
        rw [parse_dumps_elems (JsonList.cons h2 t2) fv fe' rest (by simp) hft hft2]
        simp

/-- Round trip of serialized object members through the member loop. -/
theorem parse_dumps_members (m : JsonMembers) : ∀ (fv fe : Nat) (rest : List Char),
    m ≠ JsonMembers.nil → jfuelMembers m ≤ fv → jfuelMembers m ≤ fe →
    parseMembersAux (parseValue fv) fe (dumpsMembers m ++ '}' :: rest) = some (m, rest) := by
  cases m with
  | nil => intro fv fe rest hne _ _; exact absurd rfl hne
  | cons k v t =>
    intro fv fe rest _ hfv hfe
    cases fe with
    | zero => simp [jfuelMembers] at hfe
    | succ fe' =>
      have hjv : jfuel v ≤ fv := by simp [jfuelMembers] at hfv; omega
      rw [parseMembersAux.eq_def]
      simp only []
      cases t with
      | nil =>
        rw [dumpsMembers_one, dumpsStr_eq]
        simp only [List.cons_append, List.append_assoc, List.nil_append]
        rw [skipWs_cons _ (by decide)]
        simp only [reduceIte]
        rw [parseStrBody_escape]
        simp only []
        rw [skipWs_cons _ (by decide)]
        simp only [reduceIte]
        rw [parse_dumps_val v fv ('}' :: rest) hjv (headNotDigit_cons _ (by decide))]
        simp only []
        rw [skipWs_cons _ (by decide)]
        simp
      | cons k2 v2 t2 =>
        have hft : jfuelMembers (JsonMembers.cons k2 v2 t2) ≤ fv := by
          simp [jfuelMembers] at hfv ⊢; omega
        have hft2 : jfuelMembers (JsonMembers.cons k2 v2 t2) ≤ fe' := by
          simp [jfuelMembers] at hfe ⊢; omega
        rw [dumpsMembers_cons2, dumpsStr_eq]
        simp only [List.cons_append, List.append_assoc, List.nil_append]
        rw [skipWs_cons _ (by decide)]
        simp only [reduceIte]
        rw [parseStrBody_escape]
        simp only []
        rw [skipWs_cons _ (by decide)]
        simp only [reduceIte]
        rw [parse_dumps_val v fv _ hjv (headNotDigit_cons _ (by decide))]
        simp only []
        rw [skipWs_cons _ (by decide)]
        simp only []
        rw [parse_dumps_members (JsonMembers.cons k2 v2 t2) fv fe' rest (by simp) hft hft2]
        simp

end

/-! ## Fuel is bounded by the serialization length -/

mutual

theorem jfuel_le_dumps (v : Json) : jfuel v ≤ (dumps v).length := by
  cases v with
  | null => simp [jfuel, dumps_null]
  | bool b => cases b <;> simp [jfuel, dumps_true, dumps_false]
  | num n =>
    have hne : natToDigits n.natAbs ≠ [] := (natToDigits_spec n.natAbs).1
    have : 1 ≤ (natToDigits n.natAbs).length := by
      cases h : natToDigits n.natAbs with
      | nil => exact absurd h hne
      | cons a t => simp
    rw [dumps_num]
    by_cases hneg : n < 0
    · rw [show dumpsNum n = '-' :: natToDigits n.natAbs by simp [dumpsNum, hneg]]
      simp [jfuel]
    · rw [show dumpsNum n = natToDigits n.natAbs by simp [dumpsNum, hneg]]
      simpa [jfuel] using this
  | str s => simp [jfuel, dumps_str]
  | arr l =>
    have h := jfuelList_le_dumps l
    simp only [jfuel, dumps_arr, List.length_cons, List.length_append]
    simp at h ⊢
    omega
  | obj m =>
    have h := jfuelMembers_le_dumps m
    simp only [jfuel, dumps_obj, List.length_cons, List.length_append]
    simp at h ⊢
    omega

theorem jfuelList_le_dumps (l : JsonList) : jfuelList l ≤ (dumpsList l).length + 1 := by
  cases l with
  | nil => simp [jfuelList]
  | cons h t =>
    have hh := jfuel_le_dumps h
    cases t with
    | nil =>
      rw [dumpsList_one]
      simp [jfuelList]
      omega
    | cons h2 t2 =>
      have ht := jfuelList_le_dumps (JsonList.cons h2 t2)
      rw [dumpsList_cons2]
      simp only [jfuelList, List.length_append, List.length_cons] at ht ⊢
      omega

theorem jfuelMembers_le_dumps (m : JsonMembers) :
    jfuelMembers m ≤ (dumpsMembers m).length + 1 := by
  cases m with
  | nil => simp [jfuelMembers]
  | cons k v t =>
    have hv := jfuel_le_dumps v
    cases t with
    | nil =>
      rw [dumpsMembers_one]
      simp only [jfuelMembers, List.length_append, List.length_cons]
      omega
    | cons k2 v2 t2 =>
      have ht := jfuelMembers_le_dumps (JsonMembers.cons k2 v2 t2)
      rw [dumpsMembers_cons2]
      simp only [jfuelMembers, List.length_append, List.length_cons] at ht ⊢
      omega

end

/-- The serializer-parser round trip at the `json.loads` level. -/
theorem loads_dumps (v : Json) : loads (dumps v) = some v := by
  unfold loads
  have h := parse_dumps_val v ((dumps v).length + 1) []
    (le_trans (jfuel_le_dumps v) (Nat.le_succ _)) rfl
  rw [List.append_nil] at h
  rw [h]
  simp [skipWs]

/-! ## Strip lemmas -/

theorem pyLStrip_cons {c : Char} (t : List Char) (h : isPyWs c = false) :
    pyLStrip (c :: t) = c :: t := by
  simp [pyLStrip, List.dropWhile_cons, h]

theorem pyLStrip_cons_ws {c : Char} (t : List Char) (h : isPyWs c = true) :
    pyLStrip (c :: t) = pyLStrip t := by
  simp [pyLStrip, List.dropWhile_cons, h]

theorem pyRStrip_append_last {l : List Char} {c : Char} (h : isPyWs c = false) :
    pyRStrip (l ++ [c]) = l ++ [c] := by
  simp [pyRStrip, List.reverse_append, List.dropWhile_cons, h]

theorem pyRStrip_append_last_ws {l : List Char} {c : Char} (h : isPyWs c = true) :
    pyRStrip (l ++ [c]) = pyRStrip l := by
  simp [pyRStrip, List.reverse_append, List.dropWhile_cons, h]

theorem pyRStrip_append {l1 : List Char} (l2 : List Char) (h : pyRStrip l2 = l2)
    (hne : l2 ≠ []) : pyRStrip (l1 ++ l2) = l1 ++ l2 := by
  have hrev : l2.reverse.dropWhile isPyWs = l2.reverse := by
    have := congrArg List.reverse h
    simpa [pyRStrip] using this
  rcases hr : l2.reverse with - | ⟨c, t⟩
  · exact absurd (by simpa using congrArg List.reverse hr) hne
  · have hc : isPyWs c = false := by
      rw [hr] at hrev
      have := List.dropWhile_eq_self_iff.mp hrev (by simp)
      simpa using this
    unfold pyRStrip
    rw [List.reverse_append, hr, List.cons_append, List.dropWhile_cons, hc]
    simp only [Bool.false_eq_true, if_false]
    rw [← List.cons_append, ← hr, List.reverse_append]
    simp

theorem pyStrip_eq_self {s : List Char} (h1 : pyLStrip s = s) (h2 : pyRStrip s = s) :
    pyStrip s = s := by
  simp [pyStrip, h1, h2]

/-- Stripping the serialization of an object changes nothing. -/
theorem pyStrip_dumps_obj (m : JsonMembers) :
    pyStrip (dumps (Json.obj m)) = dumps (Json.obj m) := by
  apply pyStrip_eq_self
  · rw [dumps_obj]
    exact pyLStrip_cons _ (by decide)
  · rw [dumps_obj, show '{' :: (dumpsMembers m ++ ['}'])
        = ('{' :: dumpsMembers m) ++ ['}'] by simp]
    exact pyRStrip_append_last (by decide)

/-- A decomposition of any text around its stripped core. -/
theorem strip_decomp (raw : List Char) : ∃ x y, raw = x ++ pyStrip raw ++ y := by
  refine ⟨raw.takeWhile isPyWs, ((pyLStrip raw).reverse.takeWhile isPyWs).reverse, ?_⟩
  have h1 : raw = raw.takeWhile isPyWs ++ pyLStrip raw := by
    rw [pyLStrip, List.takeWhile_append_dropWhile]
  have h2 : pyLStrip raw
      = pyStrip raw ++ ((pyLStrip raw).reverse.takeWhile isPyWs).reverse := by
    conv_lhs => rw [← List.reverse_reverse (pyLStrip raw),
      ← List.takeWhile_append_dropWhile (p := isPyWs) (l := (pyLStrip raw).reverse)]
    rw [List.reverse_append]
    rfl
  rw [List.append_assoc, ← h2, ← h1]

/-! ## Substring search -/

theorem listStartsWith_iff (p s : List Char) :
    listStartsWith p s = true ↔ ∃ r, s = p ++ r := by
  induction p generalizing s with
  | nil => simp [listStartsWith]
  | cons a t ih =>
    cases s with
    | nil => simp [listStartsWith]
    | cons c cs =>
      simp only [listStartsWith, Bool.and_eq_true, decide_eq_true_eq, List.cons_append,
        List.cons.injEq]
      rw [ih]
      constructor
      · rintro ⟨rfl, r, rfl⟩; exact ⟨r, rfl, rfl⟩
      · rintro ⟨r, rfl, rfl⟩; exact ⟨rfl, r, rfl⟩

theorem listStartsWith_append_self (p r : List Char) :
    listStartsWith p (p ++ r) = true :=
  (listStartsWith_iff p (p ++ r)).mpr ⟨r, rfl⟩

theorem findSubAux_isSome_iff (p s : List Char) : ∀ i : Nat,
    (findSubAux p s i).isSome = true ↔ ∃ a b, s = a ++ p ++ b := by
  induction s with
  | nil =>
    intro i
    rw [findSubAux]
    constructor
    · intro h
      rcases hs : listStartsWith p [] with - | -
      · simp [hs] at h
      · obtain ⟨r, hr⟩ := (listStartsWith_iff p []).mp hs
        rcases p with - | ⟨c, t⟩
        · exact ⟨[], [], by simp⟩
        · simp at hr
    · rintro ⟨a, b, hab⟩
      have : p = [] := by
        have := congrArg List.length hab
        simp at this
        rcases p with - | _
        · rfl
        · simp at this; omega
      subst this
      simp [listStartsWith_iff]
  | cons c cs ih =>
    intro i
    rw [findSubAux]
    rcases hs : listStartsWith p (c :: cs) with - | -
    · simp only [Bool.false_eq_true, if_false]
      rw [ih (i + 1)]
      constructor
      · rintro ⟨a, b, rfl⟩
        exact ⟨c :: a, b, by simp⟩
      · rintro ⟨a, b, hab⟩
        rcases a with - | ⟨a0, a'⟩
        · exfalso
          rw [show ([] : List Char) ++ p ++ b = p ++ b by simp] at hab
          rw [(listStartsWith_iff p (c :: cs)).mpr ⟨b, hab⟩] at hs
          exact Bool.noConfusion hs
        · refine ⟨a', b, ?_⟩
          simpa using congrArg List.tail hab
    · simp only [if_true]
      obtain ⟨r, hr⟩ := (listStartsWith_iff p (c :: cs)).mp hs
      exact ⟨fun _ => ⟨[], r, by simpa using hr⟩, fun _ => by simp⟩

theorem containsSub_iff (p s : List Char) :
    containsSub p s = true ↔ ∃ a b, s = a ++ p ++ b := by
  rw [containsSub, findSubAux_isSome_iff]

theorem containsSub_of_strip {p raw : List Char}
    (h : containsSub p (pyStrip raw) = true) : containsSub p raw = true := by
  obtain ⟨a, b, hab⟩ := (containsSub_iff p (pyStrip raw)).mp h
  obtain ⟨x, y, hxy⟩ := strip_decomp raw
  exact (containsSub_iff p raw).mpr ⟨x ++ a, b ++ y, by rw [hxy, hab]; simp⟩

theorem startsWith_contains {p s : List Char} (h : listStartsWith p s = true) :
    containsSub p s = true := by
  obtain ⟨r, hr⟩ := (listStartsWith_iff p s).mp h
  exact (containsSub_iff p s).mpr ⟨[], r, by simpa using hr⟩

/-! ## Pipeline-level lemmas -/

/-- A text whose first character is a backtick is never valid JSON. -/
theorem loads_backtick (t : List Char) : loads ('`' :: t) = none := by
  unfold loads
  rw [show ('`' :: t).length + 1 = (t.length + 1) + 1 by simp]
  rw [parseValue.eq_def]
  simp only []
  rw [skipWs_cons _ (by decide)]
  simp

/-- Direct parsing of a serialized object through the whole pipeline. -/
theorem parsePipeline_dumps_obj (m : JsonMembers) :
    parsePipeline (dumps (Json.obj m)) = some (Json.obj m) := by
  simp only [parsePipeline, extractStep]
  rw [pyStrip_dumps_obj, loads_dumps]
  simp [Json.isObj]

theorem direct_nonobject_none (raw : List Char) (v : Json) (h1 : loads (pyStrip raw) = some v)
    (h2 : v.isObj = false) : parsePipeline raw = none := by
  simp only [parsePipeline, extractStep]
  rw [h1]
  simp [h2]

theorem display_flags_malformed (d ar : Json)
    (h2 : d.getKey ("analysis_results").data = some ar) (h3 : ar.pyTruthy = true)
    (h4 : isListOfDicts ar = false) :
    resultsDisplay d = ResultsDisplay.formatError ar := by
  unfold resultsDisplay
  rw [h2]
  simp [h3, h4]

theorem candidate_agrees_off_start (content : List Char)
    (h : listStartsWith fenceMarker content = false) :
    extractCandidate content = specFenceCandidate content := by
  unfold extractCandidate specFenceCandidate
  rw [h]
  simp only [Bool.false_eq_true, if_false]
  by_cases hc : containsSub fenceMarker content = true
  · rw [hc]
    simp only [if_true]
    cases hfs : findSub fenceMarker content with
    | none => simp [hfs]
    | some idx =>
      simp only [hfs]
      cases hff : findSubFrom closeMarker content (idx + 7) <;> simp [hff]
  · have hc' : containsSub fenceMarker content = false := by
      revert hc; cases containsSub fenceMarker content <;> simp
    rw [hc']
    have hfs : findSub fenceMarker content = none := by
      unfold containsSub at hc'
      unfold findSub
      cases hfa : findSubAux fenceMarker content 0 with
      | none => rfl
      | some i => rw [hfa] at hc'; simp at hc'
    rw [hfs]
    simp

theorem no_marker_no_json_none (raw : List Char) (h1 : containsSub fenceMarker raw = false)
    (h2 : loads (pyStrip raw) = none) : parsePipeline raw = none := by
  have hs : containsSub fenceMarker (pyStrip raw) = false := by
    cases hcs : containsSub fenceMarker (pyStrip raw) with
    | false => rfl
    | true => rw [containsSub_of_strip hcs] at h1; exact Bool.noConfusion h1
  have hst : listStartsWith fenceMarker (pyStrip raw) = false := by
    cases hh : listStartsWith fenceMarker (pyStrip raw) with
    | false => rfl
    | true => rw [startsWith_contains hh] at hs; exact Bool.noConfusion hs
  have hec : extractCandidate (pyStrip raw) = none := by
    unfold extractCandidate
    rw [hst, hs]
    simp
  simp only [parsePipeline, extractStep]
  rw [h2, hec]

theorem extractStep_state_blind (st1 st2 : UIState) (raw1 raw2 : List Char) (h : raw1 = raw2) :
    (extractStep st1 raw1).2 = (extractStep st2 raw2).2 := by
  subst h
  simp only [extractStep]
  rcases hl : loads (pyStrip raw1) with - | v
  · rcases hec : extractCandidate (pyStrip raw1) with - | js
    · simp
    · cases hjs : js.isEmpty with
      | true => simp [hjs]
      | false =>
        rcases hl2 : loads js with - | v2
        · simp [hjs, hl2]
        · cases hv2 : v2.isObj <;> simp [hjs, hl2, hv2]
  · cases hv : v.isObj <;> simp [hv]

theorem failures_equal (raw1 raw2 : List Char) (h1 : parsePipeline raw1 = none)
    (h2 : parsePipeline raw2 = none) : parsePipeline raw1 = parsePipeline raw2 := by
  rw [h1, h2]

theorem success_from_loads (raw : List Char) (d : Json) (h : parsePipeline raw = some d) :
    d.isObj = true ∧ (loads (pyStrip raw) = some d ∨
      ∃ js, extractCandidate (pyStrip raw) = some js ∧ loads js = some d) := by
  simp only [parsePipeline, extractStep] at h
  rcases hl : loads (pyStrip raw) with - | v
  · rw [hl] at h
    simp only [] at h
    rcases hec : extractCandidate (pyStrip raw) with - | js
    · rw [hec] at h; simp at h
    · rw [hec] at h
      simp only [] at h
      cases hjs : js.isEmpty with
      | true => simp [hjs] at h
      | false =>
        simp only [hjs, Bool.false_eq_true, if_false] at h
        rcases hl2 : loads js with - | v2
        · rw [hl2] at h; simp at h
        · rw [hl2] at h
          cases hv2 : v2.isObj with
          | false => simp [hv2] at h
          | true =>
            simp only [hv2, if_true] at h
            have hvd : v2 = d := by simpa using h
            subst hvd
            exact ⟨hv2, Or.inr ⟨js, rfl, hl2⟩⟩
  · rw [hl] at h
    cases hv : v.isObj with
    | false => simp [hv] at h
    | true =>
      simp only [hv, if_true] at h
      have hvd : v = d := by simpa using h
      subst hvd
      exact ⟨hv, Or.inl rfl⟩

/-- The fence-wrapped serialization parses to the same record as the bare
serialization. -/
theorem parsePipeline_fenced_dumps_obj (m : JsonMembers) :
    parsePipeline (("```json\n").data ++ (dumps (Json.obj m) ++ ("\n```").data))
      = some (Json.obj m) := by
  have hW : ("```json\n").data ++ (dumps (Json.obj m) ++ ("\n```").data)
      = fenceMarker ++ '\n' :: (dumps (Json.obj m) ++ '\n' :: closeMarker) := by
    simp [fenceMarker, closeMarker]
  rw [hW]
  have hstrip : pyStrip (fenceMarker ++ '\n' :: (dumps (Json.obj m) ++ '\n' :: closeMarker))
      = fenceMarker ++ '\n' :: (dumps (Json.obj m) ++ '\n' :: closeMarker) := by
    apply pyStrip_eq_self
    · rw [show fenceMarker ++ '\n' :: (dumps (Json.obj m) ++ '\n' :: closeMarker)
          = '`' :: (['`', '`', 'j', 's', 'o', 'n']
            ++ '\n' :: (dumps (Json.obj m) ++ '\n' :: closeMarker)) by
        simp [fenceMarker]]
      exact pyLStrip_cons _ (by decide)
    · rw [show fenceMarker ++ '\n' :: (dumps (Json.obj m) ++ '\n' :: closeMarker)
          = (fenceMarker ++ '\n' :: dumps (Json.obj m) ++ ['\n']) ++ closeMarker by simp]
      exact pyRStrip_append closeMarker rfl (by simp [closeMarker])
  have hload : loads (fenceMarker ++ '\n' :: (dumps (Json.obj m) ++ '\n' :: closeMarker))
      = none := by
    rw [show fenceMarker ++ '\n' :: (dumps (Json.obj m) ++ '\n' :: closeMarker)
        = '`' :: (['`', '`', 'j', 's', 'o', 'n']
          ++ '\n' :: (dumps (Json.obj m) ++ '\n' :: closeMarker)) by
      simp [fenceMarker]]
    exact loads_backtick _
  have hs1 : pyStrip ('\n' :: (dumps (Json.obj m) ++ '\n' :: closeMarker))
      = dumps (Json.obj m) ++ '\n' :: closeMarker := by
    unfold pyStrip
    rw [pyLStrip_cons_ws _ (by decide)]
    rw [show pyLStrip (dumps (Json.obj m) ++ '\n' :: closeMarker)
        = dumps (Json.obj m) ++ '\n' :: closeMarker by
      rw [dumps_obj, List.cons_append]
      exact pyLStrip_cons _ (by decide)]
    rw [show dumps (Json.obj m) ++ '\n' :: closeMarker
        = (dumps (Json.obj m) ++ ['\n']) ++ closeMarker by simp]
    exact pyRStrip_append closeMarker rfl (by simp [closeMarker])
  have hs2 : pyStrip (dumps (Json.obj m) ++ ['\n']) = dumps (Json.obj m) := by
    unfold pyStrip
    rw [show pyLStrip (dumps (Json.obj m) ++ ['\n'])
        = dumps (Json.obj m) ++ ['\n'] by
      rw [dumps_obj, List.cons_append]
      exact pyLStrip_cons _ (by decide)]
    rw [pyRStrip_append_last_ws (by decide)]
    rw [dumps_obj, show '{' :: (dumpsMembers m ++ ['}'])
        = ('{' :: dumpsMembers m) ++ ['}'] by simp]
    exact pyRStrip_append_last (by decide)
  have hec : extractCandidate
      (fenceMarker ++ '\n' :: (dumps (Json.obj m) ++ '\n' :: closeMarker))
      = some (dumps (Json.obj m)) := by
    unfold extractCandidate
    rw [listStartsWith_append_self]
    rw [if_pos rfl]
    rw [show (7 : Nat) = fenceMarker.length from rfl, List.drop_left]
    rw [hs1]
    simp only []
    have hend : listEndsWith closeMarker (dumps (Json.obj m) ++ '\n' :: closeMarker)
        = true := by
      rw [show dumps (Json.obj m) ++ '\n' :: closeMarker
          = (dumps (Json.obj m) ++ ['\n']) ++ closeMarker by simp]
      rw [listEndsWith, List.reverse_append]
      exact listStartsWith_append_self _ _
    rw [hend, if_pos rfl]
    have hlen : (dumps (Json.obj m) ++ '\n' :: closeMarker).length - 3
        = (dumps (Json.obj m) ++ ['\n']).length := by
      simp [closeMarker]
    rw [hlen]
    rw [show dumps (Json.obj m) ++ '\n' :: closeMarker
        = (dumps (Json.obj m) ++ ['\n']) ++ closeMarker by simp]
    rw [List.take_left]
    rw [hs2]
  simp only [parsePipeline, extractStep]
  rw [hstrip, hload]
  simp only []
  rw [hec]
  simp only []
  rw [show (dumps (Json.obj m)).isEmpty = false by rw [dumps_obj]; simp]
  simp only [Bool.false_eq_true, if_false]
  rw [loads_dumps]
  simp [Json.isObj]

/-! ## Claims -/

/-- C1 (counterexample): for the input `c1Raw`, whose entirety is one
valid JSON string (not a mapping) and which contains a parsable fenced
JSON object, the parser does not search for the fenced block and does
not return the fenced object: it fails with `none`. -/
theorem c1_counterexample :
    loads (pyStrip c1Raw) = some (Json.str ("```json \x7b\x7d ```").data)
    ∧ Json.isObj (Json.str ("```json \x7b\x7d ```").data) = false
    ∧ containsSub fenceMarker c1Raw = true
    ∧ specFenceCandidate (pyStrip c1Raw) = some ['\x7b', '\x7d']
    ∧ loads ['\x7b', '\x7d'] = some (Json.obj JsonMembers.nil)
    ∧ parsePipeline c1Raw = none :=
  ⟨rfl, rfl, rfl, rfl, rfl, rfl⟩

/-- C1 (amended): the fenced-block search runs only when the whole text
fails to parse as JSON; whenever the entire stripped text parses as
valid JSON whose top-level value is not a mapping, the parsing step
returns the failure value `none` immediately, without looking for the
`fenceMarker` block. -/
theorem c1_theorem (raw : List Char) (v : Json) (h1 : loads (pyStrip raw) = some v)
    (h2 : v.isObj = false) : parsePipeline raw = none :=
  direct_nonobject_none raw v h1 h2

/-- C1 witness at a concrete input. -/
theorem c1_witness :
    loads (pyStrip ("[1]").data) = some (Json.arr (.cons (Json.num 1) .nil))
    ∧ Json.isObj (Json.arr (.cons (Json.num 1) .nil)) = false
    ∧ parsePipeline ("[1]").data = none :=
  ⟨rfl, rfl, c1_theorem _ _ rfl rfl⟩

/-- C2 (counterexample): for the input `c2Raw`, whose
`analysis_results` value is a string rather than a sequence, the parsing
step does not fail: it returns the record unchanged. -/
theorem c2_counterexample :
    parsePipeline c2Raw = some c2Record
    ∧ c2Record.getKey ("analysis_results").data = some (Json.str ("not-a-list").data)
    ∧ isListOfDicts (Json.str ("not-a-list").data) = false :=
  ⟨rfl, rfl, rfl⟩

/-- C2 (amended): the parsing step performs no validation of
`analysis_results`; a record whose `analysis_results` value is truthy
but not a list of dicts is returned successfully, and the malformed
shape is flagged only by the downstream display block
(`resultsDisplay`), which reports the format error instead of rendering
a table. -/
theorem c2_theorem (raw : List Char) (d ar : Json) (h1 : parsePipeline raw = some d)
    (h2 : d.getKey ("analysis_results").data = some ar) (h3 : ar.pyTruthy = true)
    (h4 : isListOfDicts ar = false) :
    parsePipeline raw = some d ∧ resultsDisplay d = ResultsDisplay.formatError ar :=
  ⟨h1, display_flags_malformed d ar h2 h3 h4⟩

/-- C2 witness at the concrete malformed input. -/
theorem c2_witness :
    parsePipeline c2Raw = some c2Record
    ∧ resultsDisplay c2Record = ResultsDisplay.formatError (Json.str ("not-a-list").data) :=
  c2_theorem c2Raw c2Record (Json.str ("not-a-list").data) rfl rfl rfl rfl

/-- C3 (counterexample): for the input `c3Raw`, where the opening marker
is at the very start and commentary follows the closing fence, the
code's candidate keeps the closing marker and the trailing commentary
(so the parse fails), while the spec's candidate stops at the next
closing marker. -/
theorem c3_counterexample :
    extractCandidate (pyStrip c3Raw) = some (("\x7b\"a\": 1\x7d\n```\nThanks").data)
    ∧ specFenceCandidate (pyStrip c3Raw) = some (("\x7b\"a\": 1\x7d").data)
    ∧ parsePipeline c3Raw = none :=
  ⟨rfl, rfl, rfl⟩

/-- C3 (amended): only when the opening marker is not at the start of
the stripped text is the candidate the text from after the marker up to
the next closing marker, trimmed — on such inputs the code's extraction
coincides with the spec's; when the text starts with the marker, the
code merely strips a closing-marker suffix, so trailing commentary
after the closing fence stays in the candidate. -/
theorem c3_theorem (content : List Char)
    (h : listStartsWith fenceMarker content = false) :
    extractCandidate content = specFenceCandidate content :=
  candidate_agrees_off_start content h

/-- C3 witness at a concrete input with the fence after commentary. -/
theorem c3_witness :
    listStartsWith fenceMarker (pyStrip c3OffStartRaw) = false
    ∧ extractCandidate (pyStrip c3OffStartRaw) = specFenceCandidate (pyStrip c3OffStartRaw)
    ∧ extractCandidate (pyStrip c3OffStartRaw) = some ['\x7b', '\x7d'] :=
  ⟨rfl, c3_theorem _ rfl, rfl⟩

/-- C4 (confirmed): for every valid JSON object conforming to the
extraction schema, parsing its serialization succeeds and returns the
very same record — the direct-parse path is a round trip. -/
theorem c4_theorem (O : Json) (h : schemaConform O = true) :
    parsePipeline (dumps O) = some O := by
  cases O with
  | obj m => exact parsePipeline_dumps_obj m
  | null => simp [schemaConform] at h
  | bool b => simp [schemaConform] at h
  | num n => simp [schemaConform] at h
  | str s => simp [schemaConform] at h
  | arr l => simp [schemaConform] at h

/-- C4 witness at a concrete schema-conforming object. -/
theorem c4_witness : schemaConform c4Obj = true ∧ parsePipeline (dumps c4Obj) = some c4Obj :=
  ⟨rfl, c4_theorem c4Obj rfl⟩

/-- C5 (confirmed): wrapping the serialization of a schema-conforming
object in a markdown fence and parsing yields the same result as
parsing the bare serialization. -/
theorem c5_theorem (O : Json) (h : schemaConform O = true) :
    parsePipeline (("```json\n").data ++ (dumps O ++ ("\n```").data))
      = parsePipeline (dumps O) := by
  cases O with
  | obj m => rw [parsePipeline_fenced_dumps_obj m, parsePipeline_dumps_obj m]
  | null => simp [schemaConform] at h
  | bool b => simp [schemaConform] at h
  | num n => simp [schemaConform] at h
  | str s => simp [schemaConform] at h
  | arr l => simp [schemaConform] at h

/-- C5 witness at a concrete schema-conforming object. -/
theorem c5_witness :
    schemaConform c5Obj = true
    ∧ parsePipeline (("```json\n").data ++ (dumps c5Obj ++ ("\n```").data))
      = parsePipeline (dumps c5Obj) :=
  ⟨rfl, c5_theorem c5Obj rfl⟩

/-- C6 (confirmed): a text that contains no opening marker and whose
stripped form fails to parse as JSON makes the parsing step fail; the
single failure value `none` is the code's rendering of `NoJsonFound`
(all error kinds share it, see C9). -/
theorem c6_theorem (raw : List Char) (h1 : containsSub fenceMarker raw = false)
    (h2 : loads (pyStrip raw) = none) : parsePipeline raw = none :=
  no_marker_no_json_none raw h1 h2

/-- C6 witness at a concrete input. -/
theorem c6_witness :
    containsSub fenceMarker ("hello there").data = false
    ∧ loads (pyStrip ("hello there").data) = none
    ∧ parsePipeline ("hello there").data = none :=
  ⟨rfl, rfl, c6_theorem _ rfl rfl⟩

/-- C7 (confirmed): the input consisting of the valid JSON array
`["a","b"]` parses directly to a non-mapping value, and the parsing
step fails on it; the failure value `none` is the code's rendering of
`NotAnObject` (all error kinds share it, see C9). -/
theorem c7_theorem :
    loads (pyStrip ("[\"a\",\"b\"]").data)
      = some (Json.arr (.cons (.str ['a']) (.cons (.str ['b']) .nil)))
    ∧ Json.isObj (Json.arr (.cons (.str ['a']) (.cons (.str ['b']) .nil))) = false
    ∧ parsePipeline ("[\"a\",\"b\"]").data = none :=
  ⟨rfl, rfl, rfl⟩

/-- C8 (confirmed): the value returned by the parsing step depends only
on the input text — two invocations on equal texts, from arbitrary
ambient UI states, return equal results; the state is only appended to,
never read. -/
theorem c8_theorem (st1 st2 : UIState) (raw1 raw2 : List Char) (h : raw1 = raw2) :
    (extractStep st1 raw1).2 = (extractStep st2 raw2).2 :=
  extractStep_state_blind st1 st2 raw1 raw2 h

/-- C8 witness at a concrete input and two different states. -/
theorem c8_witness :
    (extractStep ⟨[]⟩ ("\x7b\x7d").data).2
      = (extractStep ⟨[UIMsg.warning []]⟩ ("\x7b\x7d").data).2 :=
  c8_theorem _ _ _ _ rfl

/-- C9 (confirmed): every failure path of the parsing step returns the
single value `none`, so any two failing runs — whatever the spec error
kind — return equal values, and no diagnostic payload is carried in the
returned value (it is only displayed). -/
theorem c9_theorem (raw1 raw2 : List Char) (h1 : parsePipeline raw1 = none)
    (h2 : parsePipeline raw2 = none) : parsePipeline raw1 = parsePipeline raw2 :=
  failures_equal raw1 raw2 h1 h2

/-- C9 witness: a `NoJsonFound`-kind failure and a `NotAnObject`-kind
failure return the same value. -/
theorem c9_witness :
    parsePipeline ("hello").data = none
    ∧ parsePipeline ("[1,2]").data = none
    ∧ parsePipeline ("hello").data = parsePipeline ("[1,2]").data :=
  ⟨rfl, rfl, c9_theorem _ _ rfl rfl⟩

/-- C10 (confirmed): whenever the parsing step succeeds, the returned
record is exactly the mapping produced by `loads` on the chosen
candidate — the whole stripped text or the extracted fence candidate —
with no key filtered, no schema field inserted, and leaf values of any
JSON type passed through (the string-or-null schema invariant is not
enforced). -/
theorem c10_theorem (raw : List Char) (d : Json) (h : parsePipeline raw = some d) :
    d.isObj = true ∧ (loads (pyStrip raw) = some d ∨
      ∃ js, extractCandidate (pyStrip raw) = some js ∧ loads js = some d) :=
  success_from_loads raw d h

/-- C10 witness at a concrete record with number, boolean and array
leaves and a non-schema key, returned unmodified. -/
theorem c10_witness :
    parsePipeline c10Raw = some c10Record
    ∧ (Json.isObj c10Record = true ∧ (loads (pyStrip c10Raw) = some c10Record ∨
        ∃ js, extractCandidate (pyStrip c10Raw) = some js ∧ loads js = some c10Record)) :=
  ⟨rfl, c10_theorem c10Raw c10Record rfl⟩

end MistralOCR
